import Mathlib

/-!
DCAM4StopCapture: the MEX binding around `dcamcap_stop`.

Shallow embedding of `source/MIC/DCAM4/DCAM4StopCapture/mexFunction.cpp`.

The binding reads one `unsigned long` through the data pointer of `prhs[0]`,
casts it to the driver handle type `HDCAM`, calls `dcamcap_stop`, and prints a
two-line diagnostic when `failed` holds of the returned status.

What the source leaves to its (absent) precompiled header is kept explicit:

* the C data model (width of `unsigned long`, width of a pointer) is a
  parameter `DataModel`; `stdafx.h` is the precompiled header of the MSVC
  toolchain, whose 64-bit data model is `LLP64`;
* the driver (`dcamcap_stop`, `failed`) is a parameter `Driver`;
* the host accessor `mxGetUint64s` and the console printer `mexPrintf` are
  modelled by their documented behaviour.

Machine integers are natural numbers reduced modulo `2 ^ width`; memory is a
list of bytes, little-endian.
-/

namespace DCAM4StopCapture

/-! ## C data model -/

/-- The two 64-bit C data models a MEX file is built for. -/
inductive DataModel
  | LLP64
  | LP64
  deriving DecidableEq, Repr

/-- Width in bits of `unsigned long`. -/
def DataModel.ulongBits : DataModel → Nat
  | .LLP64 => 32
  | .LP64 => 64

/-- Width in bits of an object pointer, hence of `HDCAM`. -/
def DataModel.ptrBits : DataModel → Nat
  | .LLP64 => 64
  | .LP64 => 64

/-! ## Byte-level memory -/

/-- Little-endian image of the low `n` bytes of `v`. -/
def leBytes : Nat → Nat → List Nat
  | 0, _ => []
  | n + 1, v => (v % 256) :: leBytes n (v / 256)

/-- Value denoted by a little-endian byte sequence. -/
def fromLE : List Nat → Nat
  | [] => 0
  | b :: bs => b + 256 * fromLE bs

/-- Load of `n` bytes at byte offset `off` of a buffer; `none` when the access
leaves the buffer. -/
def loadLE (buf : List Nat) (off n : Nat) : Option Nat :=
  if off + n ≤ buf.length then some (fromLE ((buf.drop off).take n)) else none

/-! ## Host arrays -/

/-- Class identifiers of host arrays (those relevant to integer handles). -/
inductive mxClassID
  | mxCHAR_CLASS
  | mxDOUBLE_CLASS
  | mxINT32_CLASS
  | mxUINT32_CLASS
  | mxINT64_CLASS
  | mxUINT64_CLASS
  deriving DecidableEq, Repr

/-- A host array: its class and the bytes of its data buffer. -/
structure mxArray where
  classID : mxClassID
  data : List Nat
  deriving DecidableEq, Repr

/-- Data buffer of a `uint64` array with the given elements. -/
def uint64sBytes : List Nat → List Nat
  | [] => []
  | v :: vs => leBytes 8 v ++ uint64sBytes vs

/-- The `uint64` host array with the given elements. -/
def mxArray.ofUint64s (vs : List Nat) : mxArray :=
  ⟨mxClassID.mxUINT64_CLASS, uint64sBytes vs⟩

/-- Modelled from the spec: the host accessor `mxGetUint64s`, declared in the
absent precompiled header. For a `uint64` array it yields the data buffer; for
any other array the behaviour is outside the contract of the binding
(`none`). -/
def mxGetUint64s (a : mxArray) : Option (List Nat) :=
  if a.classID = mxClassID.mxUINT64_CLASS then some a.data else none

/-! ## Driver and host state -/

/-- The vendor driver as seen by the binding: the stop-capture entry point,
acting on the driver-internal state and returning a status, and the failure
predicate on statuses. Both are external to the repository. -/
structure Driver (σ : Type) where
  dcamcap_stop : σ → Nat → Int × σ
  failed : Int → Bool

/-- One call of a driver entry point. -/
structure DriverCall where
  entry : String
  handle : Nat
  deriving DecidableEq, Repr

/-- One read of an input argument: which argument, at which byte offset of its
data, and how many bytes. -/
structure InputRead where
  arg : Nat
  offset : Nat
  size : Nat
  deriving DecidableEq, Repr

/-- Everything outside the binding that it can act on: the driver state, the
text on the host console, and the logs of driver calls and input reads. -/
structure Host (σ : Type) where
  driver : σ
  console : List Char
  calls : List DriverCall
  reads : List InputRead

/-- The arguments of the MEX entry point, with the arrays they point to. -/
structure Args where
  nlhs : Int
  plhs : List (Option mxArray)
  nrhs : Int
  prhs : List mxArray
  deriving DecidableEq, Repr

/-- How an invocation hands control back to the host. -/
inductive Completion
  | returned
  | raised (msg : String)
  deriving DecidableEq, Repr

/-- State after an invocation. -/
structure Result (σ : Type) where
  completion : Completion
  host : Host σ
  args : Args

/-! ## Console formatting -/

/-- Digit characters of the `X` conversion. -/
def upperDigits : List Char := "0123456789ABCDEF".toList

/-- Character of one hexadecimal digit, uppercase. -/
def hexDigitUpper (d : Nat) : Char := upperDigits.getD d '0'

/-- Hexadecimal digits of `v`, least significant first, by repeated division;
`fuel` bounds the number of digits. -/
def hexRev : Nat → Nat → List Nat
  | 0, _ => []
  | fuel + 1, v => if v = 0 then [] else (v % 16) :: hexRev fuel (v / 16)

/-- The conversion `%lX` without padding: the argument is taken as
`unsigned long` and written with at least one digit. -/
def convlX (dm : DataModel) (v : Nat) : List Char :=
  let u := v % 2 ^ dm.ulongBits
  if u = 0 then ['0'] else ((hexRev (dm.ulongBits / 4) u).reverse).map hexDigitUpper

/-- Left padding with `'0'` up to a minimum field width (flag `0`). -/
def padZero (width : Nat) (s : List Char) : List Char :=
  List.replicate (width - s.length) '0' ++ s

/-- The conversion `%08lX`. -/
def fmt08lX (dm : DataModel) (v : Nat) : List Char :=
  padZero 8 (convlX dm v)

/-- Object representation of a `DCAMERR` status: its 32-bit two's-complement
pattern, which is what the variadic argument slot carries. Under `LLP64` the
slot and `unsigned long` have the same width; under `LP64` the slot is taken
as zero-extended. -/
def statusBits (error : Int) : Nat := (error % 2 ^ 32).toNat

/-- Modelled from the spec: text produced by
`mexPrintf("Error = 0x%08lX\ndcamcap_stop() failed.\n", error)`, the host
console printer following the C `printf` conversions. -/
def mexPrintf_stopFailed (dm : DataModel) (error : Int) : List Char :=
  "Error = 0x".toList ++ fmt08lX dm (statusBits error) ++ "\ndcamcap_stop() failed.\n".toList

/-! ## The binding -/

/-- Memory access to the data of input argument `arg`: the load of `n` bytes
at byte offset `off`, together with the record of that access. Every read of
input data goes through this function, so the record is made by the access
itself. -/
def loadInput (buf : List Nat) (arg off n : Nat) : Option (Nat × InputRead) :=
  (loadLE buf off n).map (fun x => (x, ⟨arg, off, n⟩))

/-- First block of `mexFunction` ("Grab the inputs from MATLAB"):
`mHandle = (unsigned long*)mxGetUint64s(prhs[0]); handle = (HDCAM)mHandle[0];`.
The element `mHandle[0]` is one `unsigned long` at offset 0 of the data of
`prhs[0]`. Yields the handle and the record of the read. -/
def grabInputs (dm : DataModel) (a : Args) : Option (Nat × InputRead) := do
  let p0 ← a.prhs[0]?
  let mHandle ← mxGetUint64s p0
  let (m0, rd) ← loadInput mHandle 0 (0 * (dm.ulongBits / 8)) (dm.ulongBits / 8)
  pure (m0 % 2 ^ dm.ptrBits, rd)

/-- The MEX entry point `mexFunction(nlhs, plhs, nrhs, prhs)`. -/
def mexFunction {σ : Type} (dm : DataModel) (drv : Driver σ) (host : Host σ) (a : Args) :
    Option (Result σ) := do
  let (handle, rd) ← grabInputs dm a
  let (error, driver1) := drv.dcamcap_stop host.driver handle
  let console1 :=
    if drv.failed error then host.console ++ mexPrintf_stopFailed dm error else host.console
  pure ⟨Completion.returned,
    ⟨driver1, console1, host.calls ++ [⟨"dcamcap_stop", handle⟩], host.reads ++ [rd]⟩, a⟩

/-! ## Sample driver and inputs used for concrete evaluation -/

/-- A stateless driver answering every stop-capture call with the status `e`,
whose failure predicate holds of every non-zero status. -/
def constDriver (e : Int) : Driver Unit :=
  ⟨fun s _ => (e, s), fun x => decide (x ≠ 0)⟩

/-- A fresh host: empty console and logs. -/
def host0 : Host Unit := ⟨(), [], [], []⟩

/-- Invocation `DCAM4StopCapture(uint64(v))`. -/
def callWith (v : Nat) : Args := ⟨0, [], 1, [mxArray.ofUint64s [v]]⟩


/-- A second invocation with the same element 0 of `prhs[0]` and everything
else different: other counts, an output slot, a further element and a further
argument. -/
def callWithExtras (v : Nat) : Args :=
  ⟨3, [none], 5, [mxArray.ofUint64s [v, 7], mxArray.ofUint64s [9]]⟩

/-- A host with earlier activity on its console and in its logs. -/
def hostUsed : Host Unit :=
  ⟨(), "earlier output\n".toList, [⟨"dcamcap_stop", 7⟩], [⟨0, 0, 4⟩]⟩

/-- A driver with internal state: it counts the stop-capture calls it has
served and answers each with the status `e`; its failure predicate holds of the
statuses with the top bit set. -/
def countingDriver (e : Int) : Driver Nat :=
  ⟨fun n _ => (e, n + 1), fun x => decide (x < 0)⟩

/-- A host whose driver has already served five calls, two of them through
this binding, one of which failed. -/
def hostAfterCalls : Host Nat :=
  ⟨5, "Error = 0x80000101\ndcamcap_stop() failed.\n".toList,
    [⟨"dcamcap_stop", 42⟩, ⟨"dcamcap_stop", 42⟩], [⟨0, 0, 4⟩, ⟨0, 0, 4⟩]⟩

/-- A host whose driver has served nothing yet. -/
def hostFresh : Host Nat := ⟨0, [], [], []⟩

/-! ## Specification-side vocabulary -/

/-- What the calling environment observes of an invocation: how control came
back, and the argument arrays (outputs included). The console is not part of
it. -/
def callerView {σ : Type} (r : Result σ) : Completion × Args := (r.completion, r.args)

/-- The `k` low hexadecimal digits of `n`, most significant first. -/
def hexFixed : Nat → Nat → List Nat
  | 0, _ => []
  | k + 1, n => hexFixed k (n / 16) ++ [n % 16]

/-- The value `n` written as 8 zero-padded uppercase hexadecimal digits. -/
def hex8 (n : Nat) : List Char := (hexFixed 8 n).map hexDigitUpper

/-- Value of one uppercase hexadecimal digit character. -/
def hexValue (c : Char) : Option Nat :=
  if '0' ≤ c ∧ c ≤ '9' then some (c.toNat - 48)
  else if 'A' ≤ c ∧ c ≤ 'F' then some (c.toNat - 55)
  else none

/-- Reading of a digit string as a base-16 number, continuing from `acc`. -/
def readHexFrom : Nat → List Char → Option Nat
  | acc, [] => some acc
  | acc, c :: cs =>
    match hexValue c with
    | some d => readHexFrom (16 * acc + d) cs
    | none => none

/-- Reading of a digit string as a base-16 number. -/
def readHex (cs : List Char) : Option Nat := readHexFrom 0 cs

/-- The character is one of `0`-`9`, `A`-`F`. -/
def IsUpperHex (c : Char) : Prop := ('0' ≤ c ∧ c ≤ '9') ∨ ('A' ≤ c ∧ c ≤ 'F')

/-! ## Memory lemmas -/

theorem leBytes_length (n v : Nat) : (leBytes n v).length = n := by
  induction n generalizing v with
  | zero => rfl
  | succ n ih => simp [leBytes, ih]

theorem fromLE_take_leBytes (n k v : Nat) (h : k ≤ n) :
    fromLE ((leBytes n v).take k) = v % 256 ^ k := by
  induction n generalizing k v with
  | zero =>
    have hk : k = 0 := by omega
    subst hk
    simp [leBytes, fromLE, Nat.mod_one]
  | succ n ih =>
    cases k with
    | zero => simp [fromLE, Nat.mod_one]
    | succ k =>
      have hk : k ≤ n := by omega
      simp only [leBytes, List.take_succ_cons, fromLE, ih k (v / 256) hk]
      rw [pow_succ', Nat.mod_mul]

theorem loadLE_uint64s (v : Nat) (rest : List Nat) (k : Nat) (hk : k ≤ 8) :
    loadLE (uint64sBytes (v :: rest)) 0 k = some (v % 256 ^ k) := by
  have hlen : k ≤ (leBytes 8 v).length := by rw [leBytes_length]; exact hk
  have htake : (leBytes 8 v ++ uint64sBytes rest).take k = (leBytes 8 v).take k :=
    List.take_append_of_le_length hlen
  have hle : 0 + k ≤ (uint64sBytes (v :: rest)).length := by
    simp only [uint64sBytes, List.length_append, leBytes_length]
    omega
  simp only [loadLE, hle, if_true, List.drop_zero]
  simp only [uint64sBytes, htake, fromLE_take_leBytes 8 k v hk]

/-- On a `uint64` first argument with element 0 equal to `v`, the input block
yields the low `ulongBits` bits of `v` and performs one read at offset 0. -/
theorem grabInputs_uint64 (dm : DataModel) (a : Args) (v : Nat) (rest : List Nat)
    (hp : a.prhs[0]? = some (mxArray.ofUint64s (v :: rest))) :
    grabInputs dm a = some (v % 2 ^ dm.ulongBits, ⟨0, 0, dm.ulongBits / 8⟩) := by
  cases dm
  · have h := loadLE_uint64s v rest 4 (by omega)
    simp only [grabInputs, loadInput, hp, mxGetUint64s, mxArray.ofUint64s,
      DataModel.ulongBits, DataModel.ptrBits] at h ⊢
    simp [h]
    omega
  · have h := loadLE_uint64s v rest 8 (by omega)
    simp only [grabInputs, loadInput, hp, mxGetUint64s, mxArray.ofUint64s,
      DataModel.ulongBits, DataModel.ptrBits] at h ⊢
    simp [h]

/-- Unfolding of `mexFunction` once the input block has yielded a handle. -/
theorem mexFunction_of_grab {σ : Type} (dm : DataModel) (drv : Driver σ) (host : Host σ)
    (a : Args) (handle : Nat) (rd : InputRead) (hg : grabInputs dm a = some (handle, rd)) :
    mexFunction dm drv host a = some ⟨Completion.returned,
      ⟨(drv.dcamcap_stop host.driver handle).2,
        if drv.failed (drv.dcamcap_stop host.driver handle).1
        then host.console ++ mexPrintf_stopFailed dm (drv.dcamcap_stop host.driver handle).1
        else host.console,
        host.calls ++ [⟨"dcamcap_stop", handle⟩], host.reads ++ [rd]⟩, a⟩ := by
  simp [mexFunction, hg]

/-! ## Formatting lemmas -/

theorem hexFixed_zero (k : Nat) : hexFixed k 0 = List.replicate k 0 := by
  induction k with
  | zero => rfl
  | succ k ih => simp [hexFixed, ih, List.replicate_succ']

theorem hexFixed_length (k n : Nat) : (hexFixed k n).length = k := by
  induction k generalizing n with
  | zero => rfl
  | succ k ih => simp [hexFixed, ih]

theorem hexFixed_lt (k n : Nat) : ∀ d ∈ hexFixed k n, d < 16 := by
  induction k generalizing n with
  | zero => intro d hd; simp [hexFixed] at hd
  | succ k ih =>
    intro d hd
    simp only [hexFixed, List.mem_append, List.mem_singleton] at hd
    rcases hd with hd | hd
    · exact ih _ d hd
    · omega

/-- Repeated division followed by zero padding gives the fixed-width digits. -/
theorem hexRev_pad (k fuel v : Nat) (hv : v < 16 ^ k) (hk : k ≤ fuel) :
    List.replicate (k - (hexRev fuel v).length) 0 ++ (hexRev fuel v).reverse
      = hexFixed k v := by
  induction k generalizing fuel v with
  | zero =>
    have hv0 : v = 0 := by simpa using hv
    subst hv0
    cases fuel <;> simp [hexRev, hexFixed]
  | succ k ih =>
    cases fuel with
    | zero => omega
    | succ fuel =>
      by_cases hv0 : v = 0
      · subst hv0
        simp [hexRev, hexFixed_zero]
      · have hdiv : v / 16 < 16 ^ k := by
          rw [Nat.div_lt_iff_lt_mul (by norm_num)]
          rw [pow_succ] at hv
          exact hv
        have h := ih fuel (v / 16) hdiv (by omega)
        simp only [hexRev, hv0, if_false, List.length_cons, List.reverse_cons, hexFixed,
          Nat.succ_sub_succ_eq_sub, Nat.add_sub_add_right]
        rw [← List.append_assoc, h]

theorem statusBits_lt (e : Int) : statusBits e < 2 ^ 32 := by
  unfold statusBits
  have h1 : 0 ≤ e % 2 ^ 32 := Int.emod_nonneg e (by norm_num)
  have h2 : e % 2 ^ 32 < 2 ^ 32 := Int.emod_lt_of_pos e (by norm_num)
  omega

theorem hexDigitUpper_zero : hexDigitUpper 0 = '0' := by decide

/-- For a 32-bit pattern the conversion `%08lX` writes exactly the 8
fixed-width digits, under both data models. -/
theorem fmt08lX_eq_hex8 (dm : DataModel) (u : Nat) (hu : u < 2 ^ 32) :
    fmt08lX dm u = hex8 u := by
  have hmod : u % 2 ^ dm.ulongBits = u := by
    apply Nat.mod_eq_of_lt
    cases dm <;> simp only [DataModel.ulongBits] <;> omega
  have hfuel : 8 ≤ dm.ulongBits / 4 := by
    cases dm <;> simp [DataModel.ulongBits]
  have hu16 : u < 16 ^ 8 := by norm_num at hu ⊢; exact hu
  by_cases h0 : u = 0
  · subst h0
    simp only [fmt08lX, convlX, Nat.zero_mod, if_true]
    decide
  · have h := hexRev_pad 8 (dm.ulongBits / 4) u hu16 hfuel
    simp only [fmt08lX, convlX, hmod, h0, if_false, padZero, hex8, List.length_map,
      List.length_reverse, ← h, List.map_append, List.map_replicate, hexDigitUpper_zero]

theorem hexValue_hexDigitUpper (d : Nat) (h : d < 16) : hexValue (hexDigitUpper d) = some d := by
  interval_cases d <;> decide

theorem isUpperHex_hexDigitUpper (d : Nat) (h : d < 16) : IsUpperHex (hexDigitUpper d) := by
  unfold IsUpperHex
  interval_cases d <;> decide

theorem readHexFrom_map (ds : List Nat) (acc : Nat) (h : ∀ d ∈ ds, d < 16) :
    readHexFrom acc (ds.map hexDigitUpper) = some (ds.foldl (fun a d => 16 * a + d) acc) := by
  induction ds generalizing acc with
  | nil => rfl
  | cons d ds ih =>
    have hd : d < 16 := h d (List.mem_cons_self d ds)
    have hds : ∀ x ∈ ds, x < 16 := fun x hx => h x (List.mem_cons_of_mem d hx)
    simp only [List.map_cons, readHexFrom, hexValue_hexDigitUpper d hd, List.foldl_cons]
    exact ih _ hds

theorem foldl_hexFixed (k n : Nat) :
    (hexFixed k n).foldl (fun a d => 16 * a + d) 0 = n % 16 ^ k := by
  induction k generalizing n with
  | zero => simp [hexFixed, Nat.mod_one]
  | succ k ih =>
    simp only [hexFixed, List.foldl_append, List.foldl_cons, List.foldl_nil, ih]
    rw [pow_succ', Nat.mod_mul]
    omega

theorem readHex_hex8 (u : Nat) (hu : u < 2 ^ 32) : readHex (hex8 u) = some u := by
  unfold readHex hex8
  rw [readHexFrom_map _ _ (hexFixed_lt 8 u), foldl_hexFixed]
  congr 1
  apply Nat.mod_eq_of_lt
  norm_num at hu ⊢
  exact hu

/-! ## The claims -/

/-- C1: whenever the input block yields a handle and the status `e` that the
driver's stop-capture call returns for it satisfies the failure predicate, the
binding returns having appended to the console exactly `Error = 0x`, a field,
a newline, `dcamcap_stop() failed.` and a newline, and nothing else; the field
is 8 characters long, each one of `0`-`9`, `A`-`F`, and read as a base-16
number it is `e` as an unsigned 32-bit integer. -/
theorem failure_writes_diagnostic {σ : Type} (dm : DataModel) (drv : Driver σ) (host : Host σ)
    (a : Args) (handle : Nat) (rd : InputRead) (e : Int)
    (hg : grabInputs dm a = some (handle, rd))
    (he : (drv.dcamcap_stop host.driver handle).1 = e)
    (hf : drv.failed e = true) :
    ∃ r field, mexFunction dm drv host a = some r ∧
      r.host.console = host.console ++
        ("Error = 0x".toList ++ field ++ "\ndcamcap_stop() failed.\n".toList) ∧
      field.length = 8 ∧ (∀ c ∈ field, IsUpperHex c) ∧
      readHex field = some (e % 2 ^ 32).toNat := by
  refine ⟨_, hex8 (statusBits e), mexFunction_of_grab dm drv host a handle rd hg, ?_, ?_, ?_, ?_⟩
  · simp only [he, hf, if_true, mexPrintf_stopFailed,
      fmt08lX_eq_hex8 dm (statusBits e) (statusBits_lt e)]
  · simp [hex8, hexFixed_length]
  · intro c hc
    simp only [hex8, List.mem_map] at hc
    obtain ⟨d, hd, rfl⟩ := hc
    exact isUpperHex_hexDigitUpper d (hexFixed_lt 8 _ d hd)
  · exact readHex_hex8 (statusBits e) (statusBits_lt e)

/-- Instance of C1 at handle 42 and the status 0x80000F03 (top bit set, a
letter digit), with the driver whose failure predicate is the sign test;
beside it, the console text of that run and of the run with status 0x00000719,
evaluated. -/
theorem failure_writes_diagnostic_witness :
    grabInputs DataModel.LLP64 (callWith 42) = some (42, ⟨0, 0, 4⟩) ∧
    ((countingDriver (-2147479805)).dcamcap_stop hostFresh.driver 42).1 = -2147479805 ∧
    (countingDriver (-2147479805)).failed (-2147479805) = true ∧
    (∃ r field,
      mexFunction DataModel.LLP64 (countingDriver (-2147479805)) hostFresh (callWith 42)
        = some r ∧
      r.host.console = hostFresh.console ++
        ("Error = 0x".toList ++ field ++ "\ndcamcap_stop() failed.\n".toList) ∧
      field.length = 8 ∧ (∀ c ∈ field, IsUpperHex c) ∧
      readHex field = some ((-2147479805 : Int) % 2 ^ 32).toNat) ∧
    (mexFunction DataModel.LLP64 (countingDriver (-2147479805)) hostFresh (callWith 42)).map
        (fun r => r.host.console) = some "Error = 0x80000F03\ndcamcap_stop() failed.\n".toList ∧
    (mexFunction DataModel.LLP64 (constDriver 0x719) host0 (callWith 42)).map
        (fun r => r.host.console) = some "Error = 0x00000719\ndcamcap_stop() failed.\n".toList :=
  ⟨by decide, by decide, by decide,
    failure_writes_diagnostic DataModel.LLP64 (countingDriver (-2147479805)) hostFresh
      (callWith 42) 42 ⟨0, 0, 4⟩ (-2147479805) (by decide) (by decide) (by decide),
    by decide, by decide⟩

/-- C2: whenever the input block yields a handle and the status that the
driver's stop-capture call returns for it does not satisfy the failure
predicate, the binding returns and the console is unchanged. -/
theorem success_writes_nothing {σ : Type} (dm : DataModel) (drv : Driver σ) (host : Host σ)
    (a : Args) (handle : Nat) (rd : InputRead)
    (hg : grabInputs dm a = some (handle, rd))
    (hs : drv.failed (drv.dcamcap_stop host.driver handle).1 = false) :
    ∃ r, mexFunction dm drv host a = some r ∧ r.host.console = host.console := by
  refine ⟨_, mexFunction_of_grab dm drv host a handle rd hg, ?_⟩
  simp [hs]

/-- Instance of C2 at handle 42 and status 0: the console stays empty. -/
theorem success_writes_nothing_witness :
    grabInputs DataModel.LLP64 (callWith 42) = some (42, ⟨0, 0, 4⟩) ∧
    (constDriver 0).failed ((constDriver 0).dcamcap_stop host0.driver 42).1 = false ∧
    ∃ r, mexFunction DataModel.LLP64 (constDriver 0) host0 (callWith 42) = some r ∧
      r.host.console = [] :=
  ⟨by decide, by decide,
    success_writes_nothing DataModel.LLP64 (constDriver 0) host0 (callWith 42) 42 ⟨0, 0, 4⟩
      (by decide) (by decide)⟩

/-- C3: for every handle value supplied as element 0 of a `uint64` first
argument, and for any two drivers in any states (hence any two statuses, failing
or not), the binding returns through `return`, raises nothing, hands the
argument arrays back as they were, and what the caller observes is the same in
both runs. -/
theorem returns_normally {σ τ : Type} (dm : DataModel) (drv : Driver σ) (drv2 : Driver τ)
    (host : Host σ) (host2 : Host τ) (a : Args) (v : Nat) (rest : List Nat)
    (hp : a.prhs[0]? = some (mxArray.ofUint64s (v :: rest))) :
    ∃ r r2, mexFunction dm drv host a = some r ∧ mexFunction dm drv2 host2 a = some r2 ∧
      r.completion = Completion.returned ∧ r2.completion = Completion.returned ∧
      r.args = a ∧ callerView r = callerView r2 := by
  have hg := grabInputs_uint64 dm a v rest hp
  exact ⟨_, _, mexFunction_of_grab dm drv host a _ _ hg,
    mexFunction_of_grab dm drv2 host2 a _ _ hg, rfl, rfl, rfl, rfl⟩

/-- Instance of C3: the same call answered with status 0 and with status
0x80000101 (top bit set). -/
theorem returns_normally_witness :
    (callWith 42).prhs[0]? = some (mxArray.ofUint64s (42 :: [])) ∧
    ∃ r r2, mexFunction DataModel.LLP64 (constDriver 0) host0 (callWith 42) = some r ∧
      mexFunction DataModel.LLP64 (constDriver (-2147483391)) hostUsed (callWith 42) = some r2 ∧
      r.completion = Completion.returned ∧ r2.completion = Completion.returned ∧
      r.args = callWith 42 ∧ callerView r = callerView r2 :=
  ⟨by decide,
    returns_normally DataModel.LLP64 (constDriver 0) (constDriver (-2147483391)) host0 hostUsed
      (callWith 42) 42 [] (by decide)⟩

/-- C4, evaluated under the data model of the MSVC toolchain (`unsigned long`
of 32 bits): for the handle value `0x10000002A`, whose buffer holds the bytes
`2A 00 00 00 01 00 00 00`, the read through the `unsigned long` pointer takes
the first four bytes only and the driver is called with handle 42, not with the
64-bit value supplied. -/
theorem handle_truncated_under_LLP64 :
    (callWith 4294967338).prhs = [⟨mxClassID.mxUINT64_CLASS, [42, 0, 0, 0, 1, 0, 0, 0]⟩] ∧
    (mexFunction DataModel.LLP64 (constDriver 0) host0 (callWith 4294967338)).map
        (fun r => r.host.calls) = some [⟨"dcamcap_stop", 42⟩] ∧
    (42 : Nat) ≠ 4294967338 := by
  decide

/-- Under `LLP64` the handle passed is the low 32 bits of element 0. -/
theorem grabInputs_LLP64 (a : Args) (v : Nat) (rest : List Nat)
    (hp : a.prhs[0]? = some (mxArray.ofUint64s (v :: rest))) :
    (grabInputs DataModel.LLP64 a).map Prod.fst = some (v % 2 ^ 32) := by
  rw [grabInputs_uint64 DataModel.LLP64 a v rest hp]
  rfl

/-- Under `LP64` the handle passed is element 0 itself, all 64 bits. -/
theorem grabInputs_LP64 (a : Args) (v : Nat) (rest : List Nat) (hv : v < 2 ^ 64)
    (hp : a.prhs[0]? = some (mxArray.ofUint64s (v :: rest))) :
    (grabInputs DataModel.LP64 a).map Prod.fst = some v := by
  rw [grabInputs_uint64 DataModel.LP64 a v rest hp]
  simp only [DataModel.ulongBits, Option.map_some']
  rw [Nat.mod_eq_of_lt hv]

/-- C5: for every invocation on a `uint64` first argument with element 0
equal to `v`, whatever the driver answers, the binding performs exactly one
input read; that read is of argument 0, starts at byte 0, is non-empty and
ends within the 8 bytes of element 0; the bytes at the recorded place are the
value handed to the driver, which is `v` cut to the bytes read; and every
output slot of `plhs` is left as it was. -/
theorem one_read_no_output {σ : Type} (dm : DataModel) (drv : Driver σ) (host : Host σ)
    (a : Args) (v : Nat) (rest : List Nat)
    (hp : a.prhs[0]? = some (mxArray.ofUint64s (v :: rest))) :
    ∃ r rd h, mexFunction dm drv host a = some r ∧
      r.host.reads = host.reads ++ [rd] ∧
      rd.arg = 0 ∧ rd.offset = 0 ∧ 0 < rd.size ∧ rd.offset + rd.size ≤ 8 ∧
      r.host.calls = host.calls ++ [⟨"dcamcap_stop", h⟩] ∧
      (a.prhs[rd.arg]?).bind (fun p => loadLE p.data rd.offset rd.size) = some h ∧
      h = v % 256 ^ rd.size ∧
      r.args.plhs = a.plhs := by
  have hg := grabInputs_uint64 dm a v rest hp
  have hsz : 0 < dm.ulongBits / 8 ∧ dm.ulongBits / 8 ≤ 8 := by
    cases dm <;> simp [DataModel.ulongBits]
  have hpow : v % 2 ^ dm.ulongBits = v % 256 ^ (dm.ulongBits / 8) := by
    cases dm <;> simp [DataModel.ulongBits]
  refine ⟨_, _, _, mexFunction_of_grab dm drv host a _ _ hg, rfl, rfl, rfl, hsz.1, ?_, rfl,
    ?_, hpow, rfl⟩
  · simp only [Nat.zero_add]
    exact hsz.2
  · simp only [hp, Option.some_bind, mxArray.ofUint64s]
    rw [loadLE_uint64s v rest (dm.ulongBits / 8) hsz.2, hpow]

/-- Instance of C5 on a call that declares an output slot and passes further
elements and arguments, with a handle value above `2 ^ 32`. -/
theorem one_read_no_output_witness :
    (callWithExtras 4294967338).prhs[0]? = some (mxArray.ofUint64s (4294967338 :: [7])) ∧
    ∃ r rd h,
      mexFunction DataModel.LP64 (constDriver 0x719) hostUsed (callWithExtras 4294967338)
        = some r ∧
      r.host.reads = hostUsed.reads ++ [rd] ∧
      rd.arg = 0 ∧ rd.offset = 0 ∧ 0 < rd.size ∧ rd.offset + rd.size ≤ 8 ∧
      r.host.calls = hostUsed.calls ++ [⟨"dcamcap_stop", h⟩] ∧
      ((callWithExtras 4294967338).prhs[rd.arg]?).bind
        (fun p => loadLE p.data rd.offset rd.size) = some h ∧
      h = 4294967338 % 256 ^ rd.size ∧
      r.args.plhs = (callWithExtras 4294967338).plhs :=
  ⟨by decide,
    one_read_no_output DataModel.LP64 (constDriver 0x719) hostUsed (callWithExtras 4294967338)
      4294967338 [7] (by decide)⟩

/-- C6: for every invocation on a `uint64` first argument and every driver,
the call log grows by exactly one entry, a `dcamcap_stop` call, and the driver
state afterwards is the state after that single call: no retry and no second
call, whatever status came back. -/
theorem stop_called_once {σ : Type} (dm : DataModel) (drv : Driver σ) (host : Host σ)
    (a : Args) (v : Nat) (rest : List Nat)
    (hp : a.prhs[0]? = some (mxArray.ofUint64s (v :: rest))) :
    ∃ r h, mexFunction dm drv host a = some r ∧
      r.host.calls = host.calls ++ [⟨"dcamcap_stop", h⟩] ∧
      r.host.driver = (drv.dcamcap_stop host.driver h).2 := by
  have hg := grabInputs_uint64 dm a v rest hp
  exact ⟨_, _, mexFunction_of_grab dm drv host a _ _ hg, rfl, rfl⟩

/-- Instance of C6 with a failing status. -/
theorem stop_called_once_witness :
    (callWith 42).prhs[0]? = some (mxArray.ofUint64s (42 :: [])) ∧
    ∃ r h, mexFunction DataModel.LLP64 (constDriver 0x719) hostUsed (callWith 42) = some r ∧
      r.host.calls = hostUsed.calls ++ [⟨"dcamcap_stop", h⟩] ∧
      r.host.driver = ((constDriver 0x719).dcamcap_stop hostUsed.driver h).2 :=
  ⟨by decide,
    stop_called_once DataModel.LLP64 (constDriver 0x719) hostUsed (callWith 42) 42 []
      (by decide)⟩

/-- C7: for every status `e`, under both data models, the field written by
`%08lX` is exactly 8 characters long, each one of `0`-`9`, `A`-`F`, and read
back in base 16 it gives `e` as an unsigned 32-bit integer, `e mod 2^32`. -/
theorem hex_field_roundtrip (dm : DataModel) (e : Int) :
    (fmt08lX dm (statusBits e)).length = 8 ∧
    (∀ c ∈ fmt08lX dm (statusBits e), IsUpperHex c) ∧
    readHex (fmt08lX dm (statusBits e)) = some (e % 2 ^ 32).toNat := by
  rw [fmt08lX_eq_hex8 dm (statusBits e) (statusBits_lt e)]
  refine ⟨?_, ?_, ?_⟩
  · simp [hex8, hexFixed_length]
  · intro c hc
    simp only [hex8, List.mem_map] at hc
    obtain ⟨d, hd, rfl⟩ := hc
    exact isUpperHex_hexDigitUpper d (hexFixed_lt 8 _ d hd)
  · exact readHex_hex8 (statusBits e) (statusBits_lt e)

/-- C8: for every invocation on a `uint64` first argument and every driver,
the input arrays after the call are those before it, element 0 of `prhs[0]`
included, and every driver call the invocation adds to the log is a
`dcamcap_stop` call. -/
theorem handle_left_untouched {σ : Type} (dm : DataModel) (drv : Driver σ) (host : Host σ)
    (a : Args) (v : Nat) (rest : List Nat)
    (hp : a.prhs[0]? = some (mxArray.ofUint64s (v :: rest))) :
    ∃ r, mexFunction dm drv host a = some r ∧ r.args.prhs = a.prhs ∧
      r.args.prhs[0]? = some (mxArray.ofUint64s (v :: rest)) ∧
      ∀ c ∈ r.host.calls.drop host.calls.length, c.entry = "dcamcap_stop" := by
  have hg := grabInputs_uint64 dm a v rest hp
  refine ⟨_, mexFunction_of_grab dm drv host a _ _ hg, rfl, hp, ?_⟩
  intro c hc
  simp only [List.drop_left, List.mem_singleton] at hc
  rw [hc]

/-- Instance of C8 with a failing status on a host with earlier calls. -/
theorem handle_left_untouched_witness :
    (callWithExtras 42).prhs[0]? = some (mxArray.ofUint64s (42 :: [7])) ∧
    ∃ r, mexFunction DataModel.LLP64 (constDriver 0x719) hostUsed (callWithExtras 42) = some r ∧
      r.args.prhs = (callWithExtras 42).prhs ∧
      r.args.prhs[0]? = some (mxArray.ofUint64s (42 :: [7])) ∧
      ∀ c ∈ r.host.calls.drop hostUsed.calls.length, c.entry = "dcamcap_stop" :=
  ⟨by decide,
    handle_left_untouched DataModel.LLP64 (constDriver 0x719) hostUsed (callWithExtras 42) 42 [7]
      (by decide)⟩

/-- C9: the binding keeps no state of its own. For two invocations started
from any two host states (any console contents, any call history, any driver
state), if the input block yields the same handle in both and the driver
answers the stop-capture call with the same status in both, then both return,
the handle passed to the driver is that handle in both, and the text appended
to the console is the same in both. -/
theorem no_state_between_invocations {σ : Type} (dm : DataModel) (drv : Driver σ)
    (host1 host2 : Host σ) (a1 a2 : Args) (handle : Nat) (rd1 rd2 : InputRead)
    (hg1 : grabInputs dm a1 = some (handle, rd1))
    (hg2 : grabInputs dm a2 = some (handle, rd2))
    (hresp : (drv.dcamcap_stop host1.driver handle).1
      = (drv.dcamcap_stop host2.driver handle).1) :
    ∃ r1 r2 out, mexFunction dm drv host1 a1 = some r1 ∧
      mexFunction dm drv host2 a2 = some r2 ∧
      r1.host.calls = host1.calls ++ [⟨"dcamcap_stop", handle⟩] ∧
      r2.host.calls = host2.calls ++ [⟨"dcamcap_stop", handle⟩] ∧
      r1.host.console = host1.console ++ out ∧
      r2.host.console = host2.console ++ out := by
  refine ⟨_, _,
    if drv.failed (drv.dcamcap_stop host2.driver handle).1
    then mexPrintf_stopFailed dm (drv.dcamcap_stop host2.driver handle).1 else [],
    mexFunction_of_grab dm drv host1 a1 handle rd1 hg1,
    mexFunction_of_grab dm drv host2 a2 handle rd2 hg2, rfl, rfl, ?_, ?_⟩
  · simp only [hresp]
    split <;> simp
  · simp only
    split <;> simp

/-- Instance of C9: the same failing call on a fresh host and on a host whose
driver and console carry the traces of earlier invocations. -/
theorem no_state_between_invocations_witness :
    grabInputs DataModel.LLP64 (callWith 42) = some (42, ⟨0, 0, 4⟩) ∧
    grabInputs DataModel.LLP64 (callWithExtras 42) = some (42, ⟨0, 0, 4⟩) ∧
    ((countingDriver (-2147483391)).dcamcap_stop hostFresh.driver 42).1
      = ((countingDriver (-2147483391)).dcamcap_stop hostAfterCalls.driver 42).1 ∧
    ∃ r1 r2 out,
      mexFunction DataModel.LLP64 (countingDriver (-2147483391)) hostFresh (callWith 42)
        = some r1 ∧
      mexFunction DataModel.LLP64 (countingDriver (-2147483391)) hostAfterCalls
        (callWithExtras 42) = some r2 ∧
      r1.host.calls = hostFresh.calls ++ [⟨"dcamcap_stop", 42⟩] ∧
      r2.host.calls = hostAfterCalls.calls ++ [⟨"dcamcap_stop", 42⟩] ∧
      r1.host.console = hostFresh.console ++ out ∧
      r2.host.console = hostAfterCalls.console ++ out :=
  ⟨by decide, by decide, by decide,
    no_state_between_invocations DataModel.LLP64 (countingDriver (-2147483391)) hostFresh
      hostAfterCalls (callWith 42) (callWithExtras 42) 42 ⟨0, 0, 4⟩ ⟨0, 0, 4⟩
      (by decide) (by decide) (by decide)⟩

/-- C10: two invocations whose first arguments are `uint64` arrays with the
same element 0, started from the same host with the same driver, return with
the same host state: the driver received the same handle, and the console, the
driver state and the read log agree. Nothing is assumed of `nlhs`, `nrhs`,
`plhs`, the further elements of `prhs[0]` or the further arguments. -/
theorem depends_only_on_element0 {σ : Type} (dm : DataModel) (drv : Driver σ) (host : Host σ)
    (a1 a2 : Args) (v : Nat) (rest1 rest2 : List Nat)
    (hp1 : a1.prhs[0]? = some (mxArray.ofUint64s (v :: rest1)))
    (hp2 : a2.prhs[0]? = some (mxArray.ofUint64s (v :: rest2))) :
    ∃ r1 r2 h, mexFunction dm drv host a1 = some r1 ∧ mexFunction dm drv host a2 = some r2 ∧
      r1.host.calls = host.calls ++ [⟨"dcamcap_stop", h⟩] ∧
      r2.host.calls = host.calls ++ [⟨"dcamcap_stop", h⟩] ∧
      r1.host.console = r2.host.console ∧
      r1.host.driver = r2.host.driver ∧
      r1.host.reads = r2.host.reads := by
  have hg1 := grabInputs_uint64 dm a1 v rest1 hp1
  have hg2 := grabInputs_uint64 dm a2 v rest2 hp2
  exact ⟨_, _, _, mexFunction_of_grab dm drv host a1 _ _ hg1,
    mexFunction_of_grab dm drv host a2 _ _ hg2, rfl, rfl, rfl, rfl, rfl⟩

/-- Instance of C10: a one-element call and a call with other counts, an
output slot, a second element and a second argument. -/
theorem depends_only_on_element0_witness :
    (callWith 42).prhs[0]? = some (mxArray.ofUint64s (42 :: [])) ∧
    (callWithExtras 42).prhs[0]? = some (mxArray.ofUint64s (42 :: [7])) ∧
    ∃ r1 r2 h,
      mexFunction DataModel.LP64 (countingDriver (-2147483391)) hostFresh (callWith 42)
        = some r1 ∧
      mexFunction DataModel.LP64 (countingDriver (-2147483391)) hostFresh (callWithExtras 42)
        = some r2 ∧
      r1.host.calls = hostFresh.calls ++ [⟨"dcamcap_stop", h⟩] ∧
      r2.host.calls = hostFresh.calls ++ [⟨"dcamcap_stop", h⟩] ∧
      r1.host.console = r2.host.console ∧
      r1.host.driver = r2.host.driver ∧
      r1.host.reads = r2.host.reads :=
  ⟨by decide, by decide,
    depends_only_on_element0 DataModel.LP64 (countingDriver (-2147483391)) hostFresh
      (callWith 42) (callWithExtras 42) 42 [] [7] (by decide) (by decide)⟩

end DCAM4StopCapture
